import Mathlib

/-!
Shallow embedding of the ns3sionna time-windowed channel-state cache
(`src/ns3-sionna/lib/sionna-propagation-cache.{h,cc}`) and of the
acknowledgment handling in the session helper
(`src/helper/sionna-helper.cc`, `Start`/`Destroy`).

Modelling conventions:
* simulated time (`ns3::Time`) is an integer number of nanoseconds (`ℤ`);
* `double` quantities compared or combined affinely (powers in dBm, losses
  in dB, positions) are rationals (`ℚ`);
* the external collaborators (`FriisPropagationLossModel::CalcRxPower`,
  `ConstantSpeedPropagationDelayModel::GetDelay`, `SionnaHelper`'s stored
  noise floor, and the oracle process behind the ZMQ socket) are fields of
  an `Env` record — they are outside this module per the spec;
* `std::map<CacheKey, std::vector<CacheEntry>>` is an association list in
  which every key occurs at most once (lookups are by key, so the bucket
  order in the map is irrelevant to all modelled behaviour);
* the hit/miss counters are `double` in the source but are only ever
  incremented by 1, so they are modelled as `ℕ`;
* the `NS_ASSERT`/`NS_ABORT` sites that execute on the modelled paths are
  rendered as `.error` results of an `Except`; the configuration asserts at
  the top of `GetPropagationData` (non-null helper, Sionna mobility casts)
  are assumed satisfied: the model receives node ids and positions directly.
-/

/-- Position vector in 3D (`ns3::Vector`). -/
structure Vec3 where
  x : ℚ
  y : ℚ
  z : ℚ
deriving DecidableEq

/-- A simulated endpoint as the cache sees it: its node id
(`node->GetId()`) and its current mobility-model position. -/
structure NodeState where
  id : ℕ
  pos : Vec3
deriving DecidableEq

/-- Embedding of `SionnaPropagationCache::CacheKey`: the constructor stores the smaller
id first (`m_first = a < b ? a : b`, `m_second = a < b ? b : a`). -/
structure CacheKey where
  m_first : ℕ
  m_second : ℕ
deriving DecidableEq

/-- The `CacheKey(uint32_t a, uint32_t b)` constructor. -/
def CacheKey.make (a b : ℕ) : CacheKey :=
  if a < b then ⟨a, b⟩ else ⟨b, a⟩

/-- Embedding of `SionnaPropagationCache::CacheEntry`. `m_a`/`m_b` are the tx/rx node
ids in the orientation the oracle computed, `m_a_position`/`m_b_position`
the oracle-reported positions. CFR coefficients are (real, imag) pairs. -/
structure CacheEntry where
  m_delay : ℤ
  m_loss : ℚ
  m_start_time : ℤ
  m_end_time : ℤ
  m_num_ofdm_subcarrier : ℕ
  m_a : ℕ
  m_b : ℕ
  m_a_position : Vec3
  m_b_position : Vec3
  m_freq : List ℤ
  m_cfr : List (ℚ × ℚ)
deriving DecidableEq

/-- The default `CacheEntry()` constructor: `m_start_time(-1), m_end_time(-1)`,
all other fields default-initialized (modelled as zeros / empty lists). -/
def CacheEntry.dummy : CacheEntry :=
  { m_delay := 0, m_loss := 0, m_start_time := -1, m_end_time := -1,
    m_num_ofdm_subcarrier := 0, m_a := 0, m_b := 0,
    m_a_position := ⟨0, 0, 0⟩, m_b_position := ⟨0, 0, 0⟩,
    m_freq := [], m_cfr := [] }

/-- The cache store `std::map<CacheKey, std::vector<CacheEntry>>`:
association list with at most one bucket per key. -/
abbrev Cache := List (CacheKey × List CacheEntry)

/-- Lookup `m_cache.find(key)`. -/
def Cache.find : Cache → CacheKey → Option (List CacheEntry)
  | [], _ => none
  | (k, v) :: rest, key => if k = key then some v else Cache.find rest key

/-- The bucket for `key`, or the empty bucket when the key is absent. -/
def Cache.findD (c : Cache) (key : CacheKey) : List CacheEntry :=
  (Cache.find c key).getD []

/-- In-place replacement of the bucket stored under `key` (the effect of
mutating `it->second` after `m_cache.find(key)` succeeded). -/
def Cache.setBucket : Cache → CacheKey → List CacheEntry → Cache
  | [], _, _ => []
  | (k, v) :: rest, key, nb =>
      if k = key then (k, nb) :: rest else (k, v) :: Cache.setBucket rest key nb

/-- Lines 321–331 of `sionna-propagation-cache.cc`: find the bucket and
`push_back` the entry, creating the bucket first when the pair is new. -/
def Cache.insertEntry : Cache → CacheKey → CacheEntry → Cache
  | [], key, e => [(key, [e])]
  | (k, v) :: rest, key, e =>
      if k = key then (k, v ++ [e]) :: rest
      else (k, v) :: Cache.insertEntry rest key e

/-- One receiver block of a `CsiRecord` on the wire
(`csi_response.csi(i).rx_nodes(j)`). -/
structure RxRecord where
  id : ℕ
  position : Vec3
  delay : ℤ
  wb_loss : ℚ
  frequencies : List ℤ
  csi_real : List ℚ
  csi_imag : List ℚ
deriving DecidableEq

/-- One `CsiRecord` of a `ChannelStateResponse` (`csi_response.csi(i)`). -/
structure CsiRecord where
  start_time : ℤ
  end_time : ℤ
  tx_id : ℕ
  tx_position : Vec3
  rx_nodes : List RxRecord
deriving DecidableEq

/-- Wire message `ChannelStateResponse`: flat list of CSI records. -/
structure ChannelStateResponse where
  csi : List CsiRecord
deriving DecidableEq

/-- The reply observed after one `ChannelStateRequest` round trip:
no reply at all, a reply that is not a channel state response, or a
well-formed response. -/
inductive OracleReply where
  | noReply
  | wrongKind
  | response (r : ChannelStateResponse)

/-- Fatal conditions raised on the modelled paths of
`GetPropagationData` (the two `NS_ASSERT_MSG` sites after the request). -/
inductive SionnaFatal where
  | recvFailed
  | notChannelStateResponse
deriving DecidableEq

/-- External collaborators of the cache, per the spec out-of-scope list. -/
structure Env where
  /-- External `FriisPropagationLossModel::CalcRxPower(txPowerDbm, a, b)` in dBm. -/
  friisRxPower : ℚ → Vec3 → Vec3 → ℚ
  /-- External `ConstantSpeedPropagationDelayModel::GetDelay(a, b)` in ns. -/
  constDelay : Vec3 → Vec3 → ℤ
  /-- Stored noise floor `m_sionnaHelper->GetNoiseFloor()` (the member `m_noiseDbm`). -/
  noiseFloor : ℚ
  /-- One blocking request/reply exchange keyed by `(tx, rx, time_ns)`. -/
  oracle : ℕ → ℕ → ℤ → OracleReply

/-- Mutable state of a `SionnaPropagationCache` object. `m_optimize_margin`
is a `const double` member with in-class initializer `0` in the source; it
is carried here so that its immutability is itself a statable fact. -/
structure CacheState where
  m_caching : Bool
  m_cache : Cache
  m_cache_hits : ℕ
  m_cache_miss : ℕ
  m_optimize : Bool
  m_optimize_margin : ℚ
deriving DecidableEq

/-- State established by the `SionnaPropagationCache()` constructor:
caching and optimization on, counters zero, empty store, margin 0. -/
def CacheState.init : CacheState :=
  { m_caching := true, m_cache := [], m_cache_hits := 0, m_cache_miss := 0,
    m_optimize := true, m_optimize_margin := 0 }

/-- The freshness test of lines 228 and 343:
`m_end_time >= current_time && m_start_time <= current_time`. -/
def live (now : ℤ) (e : CacheEntry) : Bool :=
  now ≤ e.m_end_time && e.m_start_time ≤ now

/-- The expiry sweep of lines 215–222: erase every entry with
`m_end_time < current_time`, keeping the rest in order. -/
def expireSweep (now : ℤ) (bucket : List CacheEntry) : List CacheEntry :=
  bucket.filter (fun e => !(decide (e.m_end_time < now)))

/-- First entry of the bucket that is live at `now` (the scan of
lines 225–235 / 341–348). -/
def findLive (now : ℤ) (bucket : List CacheEntry) : Option CacheEntry :=
  bucket.find? (live now)

/-- Construction of one `CacheEntry` from one (tx, rx) record of the
response (lines 290–319): `num_ofdm_subcarrier` is the length of
`csi_imag`, and frequency/CFR lists are read index-wise up to it. -/
def mkEntry (c : CsiRecord) (r : RxRecord) : CacheEntry :=
  { m_delay := r.delay
    m_loss := r.wb_loss
    m_start_time := c.start_time
    m_end_time := c.end_time
    m_num_ofdm_subcarrier := r.csi_imag.length
    m_a := c.tx_id
    m_b := r.id
    m_a_position := c.tx_position
    m_b_position := r.position
    m_freq := (List.range r.csi_imag.length).map (fun i => r.frequencies.getD i 0)
    m_cfr := (List.range r.csi_imag.length).map
      (fun i => (r.csi_real.getD i 0, r.csi_imag.getD i 0)) }

/-- Inner ingestion loop (lines 289–332): insert one entry per receiver
record under the canonical key `CacheKey(txId, rxId)`. -/
def ingestRx (c : CsiRecord) : Cache → List RxRecord → Cache
  | cache, [] => cache
  | cache, r :: rest =>
      ingestRx c (Cache.insertEntry cache (CacheKey.make c.tx_id r.id) (mkEntry c r)) rest

/-- Outer ingestion loop (lines 278–333): fan every record of the
response out into the store. -/
def ingestCsi : Cache → List CsiRecord → Cache
  | cache, [] => cache
  | cache, c :: rest => ingestCsi (ingestRx c cache c.rx_nodes) rest

/-- The final lookup of lines 335–352: re-read the queried pair's bucket
and return the first live entry, or the default-constructed dummy entry
when none exists (the `// cannot be reached` path). -/
def serveFromCache (cache : Cache) (key : CacheKey) (now : ℤ) : CacheEntry :=
  match Cache.find cache key with
  | some bucket => (findLive now bucket).getD CacheEntry.dummy
  | none => CacheEntry.dummy

/-- The miss path of `GetPropagationData` (lines 239–352): increment the
miss counter, perform one oracle round trip, ingest the whole response,
then serve the queried pair from the refreshed store. The third component
of the result is the number of oracle round trips performed. -/
def missRefill (env : Env) (now : ℤ) (idA idB : ℕ) (st : CacheState) :
    Except SionnaFatal (CacheEntry × CacheState × ℕ) :=
  let st1 := { st with m_cache_miss := st.m_cache_miss + 1 }
  match env.oracle idA idB now with
  | .noReply => .error .recvFailed
  | .wrongKind => .error .notChannelStateResponse
  | .response resp =>
      let cache2 := ingestCsi st1.m_cache resp.csi
      .ok (serveFromCache cache2 (CacheKey.make idA idB) now,
           { st1 with m_cache := cache2 }, 1)

/-- Embedding of `SionnaPropagationCache::GetPropagationData` (lines 188–353). With
caching enabled: look up the canonical key, sweep expired entries from its
bucket in place, and serve the first live entry as a hit; otherwise (or
with caching disabled) take the miss path. -/
def GetPropagationData (env : Env) (now : ℤ) (idA idB : ℕ) (st : CacheState) :
    Except SionnaFatal (CacheEntry × CacheState × ℕ) :=
  let key := CacheKey.make idA idB
  if st.m_caching then
    match Cache.find st.m_cache key with
    | some bucket =>
        let swept := expireSweep now bucket
        let st1 := { st with m_cache := Cache.setBucket st.m_cache key swept }
        match findLive now swept with
        | some e => .ok (e, { st1 with m_cache_hits := st1.m_cache_hits + 1 }, 0)
        | none => missRefill env now idA idB st1
    | none => missRefill env now idA idB st
  else
    missRefill env now idA idB st

/-- Result of one public accessor call: the returned value, the post-call
endpoint states, the post-call cache state, and the number of oracle round
trips performed. -/
structure AccessResult (α : Type) where
  value : α
  a : NodeState
  b : NodeState
  state : CacheState
  oracleCalls : ℕ
deriving DecidableEq

/-- Embedding of `GetPropagationDelay` (lines 50–68): fast-path check at the hardcoded
`MAX_TXPOWER_DBM = 20.0`, returning the constant-speed delay when the
estimated received power plus the margin is below the noise floor. -/
def GetPropagationDelay (env : Env) (now : ℤ) (a b : NodeState) (st : CacheState) :
    Except SionnaFatal (AccessResult ℤ) :=
  if st.m_optimize = true ∧
      env.friisRxPower 20 a.pos b.pos + st.m_optimize_margin < env.noiseFloor then
    .ok ⟨env.constDelay a.pos b.pos, a, b, st, 0⟩
  else
    match GetPropagationData env now a.id b.id st with
    | .error f => .error f
    | .ok (ce, st1, n) => .ok ⟨ce.m_delay, a, b, st1, n⟩

/-- Three-argument `GetPropagationLoss` (lines 70–122): fast path returns
the Friis loss `-(resultdBm - txPowerDbm)`; otherwise the serving entry's
positions are written back onto the endpoints, oriented by whether the
entry's recorded tx id `m_a` matches the query's `a`. -/
def GetPropagationLossTx (env : Env) (now : ℤ) (a b : NodeState) (txPowerDbm : ℚ)
    (st : CacheState) : Except SionnaFatal (AccessResult ℚ) :=
  if st.m_optimize = true ∧
      env.friisRxPower txPowerDbm a.pos b.pos + st.m_optimize_margin < env.noiseFloor then
    .ok ⟨txPowerDbm - env.friisRxPower txPowerDbm a.pos b.pos, a, b, st, 0⟩
  else
    match GetPropagationData env now a.id b.id st with
    | .error f => .error f
    | .ok (ce, st1, n) =>
        if a.id = ce.m_a then
          .ok ⟨ce.m_loss, { a with pos := ce.m_a_position },
               { b with pos := ce.m_b_position }, st1, n⟩
        else
          .ok ⟨ce.m_loss, { a with pos := ce.m_b_position },
               { b with pos := ce.m_a_position }, st1, n⟩

/-- Two-argument `GetPropagationLoss` (lines 124–131): no fast-path check,
no position write-back; straight to the data path. -/
def GetPropagationLossConst (env : Env) (now : ℤ) (a b : NodeState) (st : CacheState) :
    Except SionnaFatal (AccessResult ℚ) :=
  match GetPropagationData env now a.id b.id st with
  | .error f => .error f
  | .ok (ce, st1, n) => .ok ⟨ce.m_loss, a, b, st1, n⟩

/-- Embedding of `GetPropagationFreq` (lines 133–139): no fast-path check. -/
def GetPropagationFreq (env : Env) (now : ℤ) (a b : NodeState) (st : CacheState) :
    Except SionnaFatal (AccessResult (List ℤ)) :=
  match GetPropagationData env now a.id b.id st with
  | .error f => .error f
  | .ok (ce, st1, n) => .ok ⟨ce.m_freq, a, b, st1, n⟩

/-- Embedding of `GetPropagationCSI` (lines 142–148): no fast-path check. -/
def GetPropagationCSI (env : Env) (now : ℤ) (a b : NodeState) (st : CacheState) :
    Except SionnaFatal (AccessResult (List (ℚ × ℚ))) :=
  match GetPropagationData env now a.id b.id st with
  | .error f => .error f
  | .ok (ce, st1, n) => .ok ⟨ce.m_cfr, a, b, st1, n⟩

/-- The public mutators of `SionnaPropagationCache` (besides the
accessors): `SetSionnaHelper`, `SetCaching`, `SetOptimize`. -/
inductive CacheSetter where
  | setSionnaHelper
  | setCaching (v : Bool)
  | setOptimize (v : Bool)

/-- Effect of one mutator call on the cache state. `SetSionnaHelper` only
stores the helper pointer, which is not part of `CacheState`. -/
def applySetter (st : CacheState) : CacheSetter → CacheState
  | .setSionnaHelper => st
  | .setCaching v => { st with m_caching := v }
  | .setOptimize v => { st with m_optimize := v }

/-- Effect of a sequence of mutator calls. -/
def applySetters (st : CacheState) : List CacheSetter → CacheState
  | [] => st
  | c :: rest => applySetters (applySetter st c) rest

/-- The fast-path margin would be configurable if some sequence of public
mutator calls, starting from the constructed state, could make it nonzero. -/
def marginConfigurable : Prop :=
  ∃ calls : List CacheSetter,
    (applySetters CacheState.init calls).m_optimize_margin ≠ 0

/-- Reply observed by `SionnaHelper::Start`/`Destroy` after the blocking
`recv`: transport failure, a reply that is not a `sim_ack`, or an ack
carrying its `no_error` flag and error message. -/
inductive HelperReply where
  | noReply
  | notAck
  | ack (noError : Bool) (errorMsg : String)

/-- Fatal conditions raised by the startup/teardown exchanges. -/
inductive HelperFatal where
  | recvFailed
  | notAckReply
  | ackWithError (msg : String)
deriving DecidableEq

/-- Reply handling in `SionnaHelper::Start` (lines 250–272): missing reply
and non-ack replies are fatal, and an ack with `no_error() == false` aborts
with the oracle-supplied message. -/
def startHandleReply : HelperReply → Except HelperFatal Unit
  | .noReply => .error .recvFailed
  | .notAck => .error .notAckReply
  | .ack true _ => .ok ()
  | .ack false msg => .error (.ackWithError msg)

/-- Reply handling in `SionnaHelper::Destroy` (lines 289–303): missing
reply and non-ack replies are fatal, but only `has_sim_ack()` is checked —
the ack's `no_error` flag is never inspected. -/
def destroyHandleReply : HelperReply → Except HelperFatal Unit
  | .noReply => .error .recvFailed
  | .notAck => .error .notAckReply
  | .ack _ _ => .ok ()

/-- Total number of entries stored across all buckets. -/
def cacheSize : Cache → ℕ
  | [] => 0
  | (_, v) :: rest => v.length + cacheSize rest

/-- Total number of (tx, rx) records carried by a response. -/
def respRecordCount : List CsiRecord → ℕ
  | [] => 0
  | c :: rest => c.rx_nodes.length + respRecordCount rest

/-! ### Concrete fixtures used by witnesses and counterexamples -/

/-- Endpoint with node id 0 at the origin. -/
def nodeA : NodeState := ⟨0, ⟨0, 0, 0⟩⟩

/-- Endpoint with node id 1, 10 m away on the x axis. -/
def nodeB : NodeState := ⟨1, ⟨10, 0, 0⟩⟩

/-- One receiver record for node 1 with one subcarrier. -/
def rxRecB : RxRecord :=
  { id := 1, position := ⟨10, 0, 0⟩, delay := 33, wb_loss := 80,
    frequencies := [2412], csi_real := [1], csi_imag := [0] }

/-- One CSI record from tx node 0 to rx node 1, window [0 ns, 1000000 ns]. -/
def csiRecAB : CsiRecord :=
  { start_time := 0, end_time := 1000000, tx_id := 0, tx_position := ⟨0, 0, 0⟩,
    rx_nodes := [rxRecB] }

/-- Response delivering exactly the (0,1) record above. -/
def respAB : ChannelStateResponse := ⟨[csiRecAB]⟩

/-- Environment whose link is comfortably above the noise floor and whose
oracle always answers with `respAB`. -/
def envResp : Env :=
  { friisRxPower := fun _ _ _ => -30, constDelay := fun _ _ => 42,
    noiseFloor := -90, oracle := fun _ _ _ => .response respAB }

/-- Environment whose link is far below the noise floor; the oracle also
answers with `respAB` when asked. -/
def envQuietResp : Env :=
  { friisRxPower := fun _ _ _ => -200, constDelay := fun _ _ => 42,
    noiseFloor := -90, oracle := fun _ _ _ => .response respAB }

/-- Environment whose oracle replies with an empty channel state response. -/
def envEmptyResp : Env :=
  { friisRxPower := fun _ _ _ => -30, constDelay := fun _ _ => 0,
    noiseFloor := -90, oracle := fun _ _ _ => .response ⟨[]⟩ }

/-! ### Path lemmas for `GetPropagationData` -/

/-- The `CacheKey` constructor is symmetric in its arguments. -/
theorem CacheKey.make_comm (x y : ℕ) : CacheKey.make x y = CacheKey.make y x := by
  unfold CacheKey.make
  rcases lt_trichotomy x y with h | h | h
  · rw [if_pos h, if_neg (not_lt.mpr h.le)]
  · subst h; rfl
  · rw [if_neg (not_lt.mpr h.le), if_pos h]

/-- Hit path: with caching on, a bucket present, and a live entry surviving
the sweep, the query returns that entry with zero oracle round trips. -/
theorem gpd_hit (env : Env) (now : ℤ) (p q : ℕ) (st : CacheState)
    (b : List CacheEntry) (e : CacheEntry)
    (hc : st.m_caching = true)
    (hb : Cache.find st.m_cache (CacheKey.make p q) = some b)
    (hf : findLive now (expireSweep now b) = some e) :
    GetPropagationData env now p q st =
      .ok (e, { st with
                  m_cache := Cache.setBucket st.m_cache (CacheKey.make p q)
                    (expireSweep now b),
                  m_cache_hits := st.m_cache_hits + 1 }, 0) := by
  simp only [GetPropagationData, hc, if_true, hb, hf]

/-- Miss path after a sweep that left no live entry. -/
theorem gpd_miss_swept (env : Env) (now : ℤ) (p q : ℕ) (st : CacheState)
    (b : List CacheEntry)
    (hc : st.m_caching = true)
    (hb : Cache.find st.m_cache (CacheKey.make p q) = some b)
    (hf : findLive now (expireSweep now b) = none) :
    GetPropagationData env now p q st =
      missRefill env now p q
        { st with
          m_cache := Cache.setBucket st.m_cache (CacheKey.make p q) (expireSweep now b) } := by
  simp only [GetPropagationData, hc, if_true, hb, hf]

/-- Miss path when no bucket exists for the key. -/
theorem gpd_miss_nobucket (env : Env) (now : ℤ) (p q : ℕ) (st : CacheState)
    (hc : st.m_caching = true)
    (hb : Cache.find st.m_cache (CacheKey.make p q) = none) :
    GetPropagationData env now p q st = missRefill env now p q st := by
  simp only [GetPropagationData, hc, if_true, hb]

/-- With caching disabled the lookup and sweep are skipped entirely. -/
theorem gpd_nocaching (env : Env) (now : ℤ) (p q : ℕ) (st : CacheState)
    (hc : st.m_caching = false) :
    GetPropagationData env now p q st = missRefill env now p q st := by
  simp only [GetPropagationData, hc, if_false, Bool.false_eq_true]

/-- Unfolding of the miss path when the oracle answers with a response. -/
theorem missRefill_response (env : Env) (now : ℤ) (p q : ℕ) (st : CacheState)
    (resp : ChannelStateResponse)
    (hresp : env.oracle p q now = .response resp) :
    missRefill env now p q st =
      .ok (serveFromCache (ingestCsi st.m_cache resp.csi) (CacheKey.make p q) now,
           { st with m_cache := ingestCsi st.m_cache resp.csi,
                     m_cache_miss := st.m_cache_miss + 1 }, 1) := by
  unfold missRefill
  rw [hresp]

/-- One mutator call never changes the fast-path margin. -/
theorem applySetter_margin (st : CacheState) (c : CacheSetter) :
    (applySetter st c).m_optimize_margin = st.m_optimize_margin := by
  cases c <;> rfl

/-- No sequence of mutator calls changes the fast-path margin. -/
theorem applySetters_margin (calls : List CacheSetter) (st : CacheState) :
    (applySetters st calls).m_optimize_margin = st.m_optimize_margin := by
  induction calls generalizing st with
  | nil => rfl
  | cons c rest ih => rw [applySetters, ih, applySetter_margin]

/-- C5 counterexample: the fast-path margin cannot be configured — no
sequence of public mutator calls starting from the constructed state makes
it differ from its fixed value 0 dB. -/
theorem c5_margin_not_configurable : ¬ marginConfigurable := by
  rintro ⟨calls, h⟩
  exact h ((applySetters_margin calls CacheState.init).trans rfl)

/-- C5 (amended): when the fast-path optimization is enabled and the Friis
received power at the requested transmit power plus the margin is below the
configured noise floor, the three-argument loss accessor returns the
free-space pathloss (tx power minus estimated received power) with no cache
access and no oracle round trip; the margin is fixed at 0 dB (a constant
member that no public mutator can change — it is not configurable). -/
theorem c5_fast_path_short_circuit (env : Env) (now : ℤ) (a b : NodeState)
    (txPowerDbm : ℚ) (st : CacheState)
    (hopt : st.m_optimize = true)
    (hbelow : env.friisRxPower txPowerDbm a.pos b.pos + st.m_optimize_margin <
      env.noiseFloor) :
    GetPropagationLossTx env now a b txPowerDbm st =
      .ok ⟨txPowerDbm - env.friisRxPower txPowerDbm a.pos b.pos, a, b, st, 0⟩ ∧
    CacheState.init.m_optimize_margin = 0 ∧
    ∀ calls : List CacheSetter,
      (applySetters CacheState.init calls).m_optimize_margin = 0 := by
  refine ⟨?_, rfl, fun calls => (applySetters_margin calls CacheState.init).trans rfl⟩
  unfold GetPropagationLossTx
  rw [if_pos ⟨hopt, hbelow⟩]

/-- C5 witness: concrete instantiation of the fast-path theorem on a link
200 dB below a −90 dBm noise floor. -/
theorem c5_witness :
    GetPropagationLossTx envQuietResp 0 nodeA nodeB 20 CacheState.init =
      .ok ⟨20 - envQuietResp.friisRxPower 20 nodeA.pos nodeB.pos,
           nodeA, nodeB, CacheState.init, 0⟩ ∧
    CacheState.init.m_optimize_margin = 0 :=
  ⟨(c5_fast_path_short_circuit envQuietResp 0 nodeA nodeB 20 CacheState.init rfl
      (by norm_num [envQuietResp, CacheState.init])).1, rfl⟩

/-- C8 (amended): in the startup exchange a missing reply, a non-ack reply,
and an ack carrying an error status are all fatal; in the teardown exchange
a missing reply and a non-ack reply are fatal, but an ack is accepted
without its error status ever being inspected. -/
theorem c8_ack_handling (msg : String) (e : Bool) :
    startHandleReply .noReply = .error .recvFailed ∧
    startHandleReply .notAck = .error .notAckReply ∧
    startHandleReply (.ack false msg) = .error (.ackWithError msg) ∧
    startHandleReply (.ack true msg) = .ok () ∧
    destroyHandleReply .noReply = .error .recvFailed ∧
    destroyHandleReply .notAck = .error .notAckReply ∧
    destroyHandleReply (.ack e msg) = .ok () := by
  refine ⟨rfl, rfl, rfl, rfl, rfl, rfl, ?_⟩
  cases e <;> rfl

/-- C8 counterexample: the teardown exchange accepts an acknowledgment that
carries an error status, instead of treating it as fatal. -/
theorem c8_destroy_accepts_error_ack :
    destroyHandleReply (.ack false "scene teardown failed") = .ok () := rfl

/-- C9: the delay accessor, the two-argument loss accessor, the CSI
accessor and the frequency accessor all leave both endpoints' position
state unchanged; only the three-argument loss accessor writes oracle
positions back. -/
theorem c9_only_loss_tx_moves_positions (env : Env) (now : ℤ)
    (a b : NodeState) (st : CacheState) :
    (GetPropagationDelay env now a b st).map (fun r => (r.a, r.b)) =
      (GetPropagationDelay env now a b st).map (fun _ => (a, b)) ∧
    (GetPropagationLossConst env now a b st).map (fun r => (r.a, r.b)) =
      (GetPropagationLossConst env now a b st).map (fun _ => (a, b)) ∧
    (GetPropagationFreq env now a b st).map (fun r => (r.a, r.b)) =
      (GetPropagationFreq env now a b st).map (fun _ => (a, b)) ∧
    (GetPropagationCSI env now a b st).map (fun r => (r.a, r.b)) =
      (GetPropagationCSI env now a b st).map (fun _ => (a, b)) := by
  refine ⟨?_, ?_, ?_, ?_⟩
  · unfold GetPropagationDelay
    split
    · rfl
    · split <;> rfl
  · unfold GetPropagationLossConst
    split <;> rfl
  · unfold GetPropagationFreq
    split <;> rfl
  · unfold GetPropagationCSI
    split <;> rfl

/-- C1 counterexample: with an empty cache and an oracle that violates its
contract by answering with an empty response, the query returns the dummy
entry as a normal value instead of aborting. -/
theorem c1_counterexample :
    GetPropagationData envEmptyResp 0 0 1 CacheState.init =
      .ok (CacheEntry.dummy, { CacheState.init with m_cache_miss := 1 }, 1) := rfl

/-- Replacing a present bucket makes the new bucket the one found. -/
theorem Cache.find_setBucket (c : Cache) (key : CacheKey)
    (nb b : List CacheEntry) (h : Cache.find c key = some b) :
    Cache.find (Cache.setBucket c key nb) key = some nb := by
  induction c with
  | nil => simp [Cache.find] at h
  | cons kv rest ih =>
      obtain ⟨k, v⟩ := kv
      by_cases hk : k = key
      · subst hk
        simp [Cache.find, Cache.setBucket]
      · simp only [Cache.find, Cache.setBucket, if_neg hk] at h ⊢
        exact ih h

/-- A bucket containing a live entry yields a successful live scan. -/
theorem findLive_isSome_of_exists (now : ℤ) (l : List CacheEntry)
    (h : ∃ x ∈ l, live now x = true) :
    ∃ e, findLive now l = some e ∧ live now e = true ∧ e ∈ l := by
  obtain ⟨x, hx, hxl⟩ := h
  unfold findLive
  cases hf : l.find? (live now) with
  | some e => exact ⟨e, rfl, List.find?_some hf, List.mem_of_find?_eq_some hf⟩
  | none => exact absurd hxl (List.find?_eq_none.mp hf x hx)

/-- C2: with caching enabled, the expiry sweep removes exactly the bucket
entries whose window ended before `now`; a hit serves a live entry from the
swept bucket with zero oracle round trips and stores the swept bucket back;
and when no bucket entry is live the query takes the miss path, performing
one oracle round trip. -/
theorem c2_ttl_correctness (env : Env) (now : ℤ) (p q : ℕ) (st : CacheState)
    (b : List CacheEntry)
    (hc : st.m_caching = true)
    (hb : Cache.find st.m_cache (CacheKey.make p q) = some b) :
    (∀ x : CacheEntry, x ∈ expireSweep now b ↔ x ∈ b ∧ ¬(x.m_end_time < now)) ∧
    ((∃ x ∈ expireSweep now b, live now x = true) →
      ∃ e st1, GetPropagationData env now p q st = .ok (e, st1, 0) ∧
        live now e = true ∧ e ∈ b ∧
        st1.m_cache_hits = st.m_cache_hits + 1 ∧
        Cache.find st1.m_cache (CacheKey.make p q) = some (expireSweep now b)) ∧
    ((∀ x ∈ b, live now x = false) →
      ∀ resp, env.oracle p q now = .response resp →
        ∃ e st1, GetPropagationData env now p q st = .ok (e, st1, 1) ∧
          st1.m_cache_miss = st.m_cache_miss + 1) := by
  refine ⟨?_, ?_, ?_⟩
  · intro x
    simp [expireSweep, List.mem_filter]
  · intro hex
    obtain ⟨e, hf, hel, hem⟩ := findLive_isSome_of_exists now (expireSweep now b) hex
    refine ⟨e, _, gpd_hit env now p q st b e hc hb hf, hel, ?_, rfl, ?_⟩
    · exact (List.mem_filter.mp hem).1
    · exact Cache.find_setBucket st.m_cache (CacheKey.make p q) (expireSweep now b) b hb
  · intro hnone resp hresp
    have hf : findLive now (expireSweep now b) = none := by
      unfold findLive
      apply List.find?_eq_none.mpr
      intro x hx
      have hxb : x ∈ b := (List.mem_filter.mp hx).1
      simp [hnone x hxb]
    have hgoal := gpd_miss_swept env now p q st b hc hb hf
    rw [missRefill_response env now p q _ resp hresp] at hgoal
    exact ⟨_, _, hgoal, rfl⟩

/-- The cache entry produced by ingesting the fixture record. -/
def entryAB : CacheEntry := mkEntry csiRecAB rxRecB

/-- A constructed cache state already holding `entryAB` for the pair (0,1). -/
def stWithEntry : CacheState :=
  { CacheState.init with m_cache := [(CacheKey.make 0 1, [entryAB])] }

/-- C2 witness: at time 0 the stored live entry for (0,1) is a hit with
zero oracle round trips. -/
theorem c2_witness :
    ∃ e st1, GetPropagationData envResp 0 0 1 stWithEntry = .ok (e, st1, 0) ∧
      live 0 e = true ∧ e ∈ [entryAB] ∧
      st1.m_cache_hits = stWithEntry.m_cache_hits + 1 ∧
      Cache.find st1.m_cache (CacheKey.make 0 1) = some (expireSweep 0 [entryAB]) :=
  (c2_ttl_correctness envResp 0 0 1 stWithEntry [entryAB] rfl rfl).2.1
    ⟨entryAB, by show entryAB ∈ [entryAB]; exact List.mem_singleton.mpr rfl, rfl⟩

/-- C3: the cache key canonicalizes unordered pairs, and while a live entry
covers `now` a query in either orientation is a hit returning the very same
cache entry — hence the same delay and loss scalars — with the same
post-call state. -/
theorem c3_canonical_key_reciprocity (x y : ℕ) (hxy : x ≠ y) (env : Env)
    (now : ℤ) (st : CacheState) (b : List CacheEntry)
    (hc : st.m_caching = true)
    (hb : Cache.find st.m_cache (CacheKey.make x y) = some b)
    (hlive : ∃ e ∈ expireSweep now b, live now e = true) :
    CacheKey.make x y = CacheKey.make y x ∧
    ∃ e st1, GetPropagationData env now x y st = .ok (e, st1, 0) ∧
      GetPropagationData env now y x st = .ok (e, st1, 0) := by
  obtain ⟨e, hf, hel, hem⟩ := findLive_isSome_of_exists now (expireSweep now b) hlive
  refine ⟨CacheKey.make_comm x y, e, _, gpd_hit env now x y st b e hc hb hf, ?_⟩
  have hb2 : Cache.find st.m_cache (CacheKey.make y x) = some b := by
    rw [← CacheKey.make_comm x y]
    exact hb
  rw [gpd_hit env now y x st b e hc hb2 hf, ← CacheKey.make_comm x y]

/-- C3 witness: with the live (0,1) entry stored, querying (0,1) and (1,0)
at time 0 yields the same entry and state. -/
theorem c3_witness :
    CacheKey.make 0 1 = CacheKey.make 1 0 ∧
    ∃ e st1, GetPropagationData envResp 0 0 1 stWithEntry = .ok (e, st1, 0) ∧
      GetPropagationData envResp 0 1 0 stWithEntry = .ok (e, st1, 0) :=
  c3_canonical_key_reciprocity 0 1 (by decide) envResp 0 stWithEntry [entryAB]
    rfl rfl ⟨entryAB, by show entryAB ∈ [entryAB]; exact List.mem_singleton.mpr rfl, rfl⟩

/-- Inserting an entry makes it a member of its key's bucket. -/
theorem insertEntry_mem (c : Cache) (key : CacheKey) (e : CacheEntry) :
    ∃ b, Cache.find (Cache.insertEntry c key e) key = some b ∧ e ∈ b := by
  induction c with
  | nil =>
      refine ⟨[e], ?_, List.mem_singleton.mpr rfl⟩
      simp [Cache.insertEntry, Cache.find]
  | cons kv rest ih =>
      obtain ⟨k, v⟩ := kv
      by_cases hk : k = key
      · subst hk
        refine ⟨v ++ [e], ?_, by simp⟩
        simp [Cache.insertEntry, Cache.find]
      · obtain ⟨b, hfind, hmem⟩ := ih
        refine ⟨b, ?_, hmem⟩
        simp [Cache.insertEntry, Cache.find, hk, hfind]

/-- Inserting an entry never removes an existing entry from any bucket. -/
theorem insertEntry_mem_mono (c : Cache) (key k2 : CacheKey) (e x : CacheEntry)
    (b : List CacheEntry) (h : Cache.find c k2 = some b) (hx : x ∈ b) :
    ∃ b2, Cache.find (Cache.insertEntry c key e) k2 = some b2 ∧ x ∈ b2 := by
  induction c with
  | nil => simp [Cache.find] at h
  | cons kv rest ih =>
      obtain ⟨k, v⟩ := kv
      by_cases hk : k = key
      · subst hk
        by_cases hk2 : k = k2
        · subst hk2
          simp only [Cache.find, if_pos rfl] at h
          cases h
          exact ⟨b ++ [e], by simp [Cache.insertEntry, Cache.find],
            List.mem_append_left _ hx⟩
        · simp only [Cache.find, if_neg hk2] at h
          exact ⟨b, by simp [Cache.insertEntry, Cache.find, hk2, h], hx⟩
      · by_cases hk2 : k = k2
        · subst hk2
          simp only [Cache.find, if_pos rfl] at h
          cases h
          exact ⟨b, by simp [Cache.insertEntry, Cache.find, hk], hx⟩
        · simp only [Cache.find, if_neg hk2] at h
          obtain ⟨b2, hfind, hmem⟩ := ih h
          exact ⟨b2, by simp [Cache.insertEntry, Cache.find, hk, hk2, hfind], hmem⟩

/-- Ingesting a record's receivers never removes existing entries. -/
theorem ingestRx_mem_mono (cr : CsiRecord) (rxs : List RxRecord) (cache : Cache)
    (k2 : CacheKey) (x : CacheEntry) (b : List CacheEntry)
    (h : Cache.find cache k2 = some b) (hx : x ∈ b) :
    ∃ b2, Cache.find (ingestRx cr cache rxs) k2 = some b2 ∧ x ∈ b2 := by
  induction rxs generalizing cache b with
  | nil => exact ⟨b, h, hx⟩
  | cons r rest ih =>
      obtain ⟨b1, h1, hx1⟩ := insertEntry_mem_mono cache
        (CacheKey.make cr.tx_id r.id) k2 (mkEntry cr r) x b h hx
      exact ih _ _ h1 hx1

/-- Every receiver record of a CSI record lands in its canonical bucket. -/
theorem ingestRx_mem (cr : CsiRecord) (rxs : List RxRecord) (cache : Cache)
    (r : RxRecord) (hr : r ∈ rxs) :
    ∃ b, Cache.find (ingestRx cr cache rxs) (CacheKey.make cr.tx_id r.id) = some b ∧
      mkEntry cr r ∈ b := by
  induction rxs generalizing cache with
  | nil => cases hr
  | cons r0 rest ih =>
      rcases List.mem_cons.mp hr with h0 | hmem
      · subst h0
        obtain ⟨b1, h1, hx1⟩ := insertEntry_mem cache
          (CacheKey.make cr.tx_id r.id) (mkEntry cr r)
        exact ingestRx_mem_mono cr rest _ _ _ b1 h1 hx1
      · exact ih _ hmem

/-- Ingesting a whole response never removes existing entries. -/
theorem ingestCsi_mem_mono (csis : List CsiRecord) (cache : Cache)
    (k2 : CacheKey) (x : CacheEntry) (b : List CacheEntry)
    (h : Cache.find cache k2 = some b) (hx : x ∈ b) :
    ∃ b2, Cache.find (ingestCsi cache csis) k2 = some b2 ∧ x ∈ b2 := by
  induction csis generalizing cache b with
  | nil => exact ⟨b, h, hx⟩
  | cons c0 rest ih =>
      obtain ⟨b1, h1, hx1⟩ := ingestRx_mem_mono c0 c0.rx_nodes cache k2 x b h hx
      exact ih _ _ h1 hx1

/-- Every (tx, rx) record of an ingested response is a member of the bucket
of the canonical key of that record's pair. -/
theorem ingestCsi_mem (csis : List CsiRecord) (cache : Cache) (c : CsiRecord)
    (r : RxRecord) (hcm : c ∈ csis) (hr : r ∈ c.rx_nodes) :
    ∃ b, Cache.find (ingestCsi cache csis) (CacheKey.make c.tx_id r.id) = some b ∧
      mkEntry c r ∈ b := by
  induction csis generalizing cache with
  | nil => cases hcm
  | cons c0 rest ih =>
      rcases List.mem_cons.mp hcm with h0 | hmem
      · subst h0
        obtain ⟨b1, h1, hx1⟩ := ingestRx_mem c c.rx_nodes cache r hr
        exact ingestCsi_mem_mono rest _ _ _ b1 h1 hx1
      · exact ih _ hmem

/-- Inserting one entry grows the store by exactly one entry. -/
theorem cacheSize_insertEntry (c : Cache) (key : CacheKey) (e : CacheEntry) :
    cacheSize (Cache.insertEntry c key e) = cacheSize c + 1 := by
  induction c with
  | nil => rfl
  | cons kv rest ih =>
      obtain ⟨k, v⟩ := kv
      by_cases hk : k = key
      · subst hk
        simp [Cache.insertEntry, cacheSize]
        omega
      · simp [Cache.insertEntry, cacheSize, hk, ih]
        omega

/-- Ingesting one CSI record grows the store by its receiver count. -/
theorem cacheSize_ingestRx (cr : CsiRecord) (rxs : List RxRecord) (cache : Cache) :
    cacheSize (ingestRx cr cache rxs) = cacheSize cache + rxs.length := by
  induction rxs generalizing cache with
  | nil => rfl
  | cons r rest ih =>
      simp [ingestRx, ih, cacheSize_insertEntry]
      omega

/-- Ingesting a response grows the store by its total record count. -/
theorem cacheSize_ingestCsi (csis : List CsiRecord) (cache : Cache) :
    cacheSize (ingestCsi cache csis) = cacheSize cache + respRecordCount csis := by
  induction csis generalizing cache with
  | nil => rfl
  | cons c0 rest ih =>
      simp [ingestCsi, respRecordCount, ih, cacheSize_ingestRx]
      omega

/-- C10: with caching disabled every query skips the lookup and sweep,
increments the miss counter, performs one oracle round trip, still ingests
the whole response into the store, serves the answer from that store — and
the store grows by the full record count of the response. -/
theorem c10_caching_disabled_still_populates (env : Env) (now : ℤ) (p q : ℕ)
    (st : CacheState) (resp : ChannelStateResponse)
    (hnc : st.m_caching = false)
    (hresp : env.oracle p q now = .response resp) :
    GetPropagationData env now p q st =
      .ok (serveFromCache (ingestCsi st.m_cache resp.csi) (CacheKey.make p q) now,
           { st with m_cache := ingestCsi st.m_cache resp.csi,
                     m_cache_miss := st.m_cache_miss + 1 }, 1) ∧
    cacheSize (ingestCsi st.m_cache resp.csi) =
      cacheSize st.m_cache + respRecordCount resp.csi := by
  refine ⟨?_, cacheSize_ingestCsi resp.csi st.m_cache⟩
  rw [gpd_nocaching env now p q st hnc,
    missRefill_response env now p q st resp hresp]

/-- Cache state with caching switched off via `SetCaching(false)`. -/
def stNoCaching : CacheState := { CacheState.init with m_caching := false }

/-- C10 witness: concrete query with caching disabled ingests the fixture
response and serves from the store. -/
theorem c10_witness :
    GetPropagationData envResp 0 0 1 stNoCaching =
      .ok (serveFromCache (ingestCsi stNoCaching.m_cache respAB.csi)
             (CacheKey.make 0 1) 0,
           { stNoCaching with
               m_cache := ingestCsi stNoCaching.m_cache respAB.csi,
               m_cache_miss := stNoCaching.m_cache_miss + 1 }, 1) ∧
    cacheSize (ingestCsi stNoCaching.m_cache respAB.csi) =
      cacheSize stNoCaching.m_cache + respRecordCount respAB.csi :=
  c10_caching_disabled_still_populates envResp 0 0 1 stNoCaching respAB rfl rfl

/-- C4: a miss-triggered refill inserts every record of the response into
the bucket of the canonical key of that record's (tx, rx) pair — over all
windows and receivers, not only the queried pair — and a later query for
any such pair at a time inside the delivered window is a cache hit with
zero additional oracle round trips. -/
theorem c4_lookahead_fanout (env : Env) (now t : ℤ) (p q : ℕ) (st : CacheState)
    (resp : ChannelStateResponse) (c : CsiRecord) (r : RxRecord)
    (hc : st.m_caching = true)
    (hresp : env.oracle p q now = .response resp)
    (hnolive : ∀ x ∈ Cache.findD st.m_cache (CacheKey.make p q), live now x = false)
    (hcm : c ∈ resp.csi) (hr : r ∈ c.rx_nodes)
    (ht1 : c.start_time ≤ t) (ht2 : t ≤ c.end_time) :
    ∃ e1 st1, GetPropagationData env now p q st = .ok (e1, st1, 1) ∧
      (∃ b, Cache.find st1.m_cache (CacheKey.make c.tx_id r.id) = some b ∧
        mkEntry c r ∈ b) ∧
      ∃ e2 st2, GetPropagationData env t c.tx_id r.id st1 = .ok (e2, st2, 0) ∧
        live t e2 = true ∧
        st2.m_cache_hits = st1.m_cache_hits + 1 ∧
        st2.m_cache_miss = st1.m_cache_miss := by
  -- the entry fanned out for (c, r) is live at t
  have hlv : live t (mkEntry c r) = true := by
    simp only [live, mkEntry, Bool.and_eq_true, decide_eq_true_eq]
    exact ⟨ht2, ht1⟩
  -- case split on whether a bucket exists for the queried pair
  cases hbq : Cache.find st.m_cache (CacheKey.make p q) with
  | some b =>
      have hbd : Cache.findD st.m_cache (CacheKey.make p q) = b := by
        unfold Cache.findD
        rw [hbq]
        rfl
      rw [hbd] at hnolive
      have hf : findLive now (expireSweep now b) = none := by
        unfold findLive
        apply List.find?_eq_none.mpr
        intro x hx
        have hxb : x ∈ b := (List.mem_filter.mp hx).1
        simp [hnolive x hxb]
      have h1 := gpd_miss_swept env now p q st b hc hbq hf
      rw [missRefill_response env now p q _ resp hresp] at h1
      refine ⟨_, _, h1, ?_, ?_⟩
      · exact ingestCsi_mem resp.csi _ c r hcm hr
      · obtain ⟨b2, hfind2, hmem2⟩ := ingestCsi_mem resp.csi
          (Cache.setBucket st.m_cache (CacheKey.make p q) (expireSweep now b)) c r hcm hr
        have hex : ∃ x ∈ expireSweep t b2, live t x = true := by
          refine ⟨mkEntry c r, ?_, hlv⟩
          apply List.mem_filter.mpr
          refine ⟨hmem2, ?_⟩
          simp only [Bool.not_eq_true', decide_eq_false_iff_not, not_lt]
          exact ht2
        obtain ⟨e2, hf2, he2l, _⟩ := findLive_isSome_of_exists t (expireSweep t b2) hex
        exact ⟨e2, _, gpd_hit env t c.tx_id r.id _ b2 e2 hc hfind2 hf2, he2l, rfl, rfl⟩
  | none =>
      have h1 := gpd_miss_nobucket env now p q st hc hbq
      rw [missRefill_response env now p q _ resp hresp] at h1
      refine ⟨_, _, h1, ?_, ?_⟩
      · exact ingestCsi_mem resp.csi _ c r hcm hr
      · obtain ⟨b2, hfind2, hmem2⟩ := ingestCsi_mem resp.csi st.m_cache c r hcm hr
        have hex : ∃ x ∈ expireSweep t b2, live t x = true := by
          refine ⟨mkEntry c r, ?_, hlv⟩
          apply List.mem_filter.mpr
          refine ⟨hmem2, ?_⟩
          simp only [Bool.not_eq_true', decide_eq_false_iff_not, not_lt]
          exact ht2
        obtain ⟨e2, hf2, he2l, _⟩ := findLive_isSome_of_exists t (expireSweep t b2) hex
        exact ⟨e2, _, gpd_hit env t c.tx_id r.id _ b2 e2 hc hfind2 hf2, he2l, rfl, rfl⟩

/-- Receiver record for node 2 in the look-ahead window. -/
def rxRecC : RxRecord :=
  { id := 2, position := ⟨20, 0, 0⟩, delay := 66, wb_loss := 90,
    frequencies := [2412], csi_real := [1], csi_imag := [1] }

/-- A second CSI record (pair (0,2), later window) delivered by look-ahead. -/
def csiRecAC : CsiRecord :=
  { start_time := 1000000, end_time := 2000000, tx_id := 0,
    tx_position := ⟨0, 0, 0⟩, rx_nodes := [rxRecC] }

/-- Look-ahead response covering pairs (0,1) and (0,2) in two windows. -/
def respLookahead : ChannelStateResponse := ⟨[csiRecAB, csiRecAC]⟩

/-- Environment whose oracle delivers the look-ahead response. -/
def envLookahead : Env :=
  { friisRxPower := fun _ _ _ => -30, constDelay := fun _ _ => 42,
    noiseFloor := -90, oracle := fun _ _ _ => .response respLookahead }

/-- C4 witness: querying (0,1) at time 0 fans the (0,2) record of the
look-ahead response into its bucket, and the query for (0,2) inside the
second window is then a hit with zero oracle round trips. -/
theorem c4_witness :
    ∃ e1 st1, GetPropagationData envLookahead 0 0 1 CacheState.init = .ok (e1, st1, 1) ∧
      (∃ b, Cache.find st1.m_cache (CacheKey.make csiRecAC.tx_id rxRecC.id) = some b ∧
        mkEntry csiRecAC rxRecC ∈ b) ∧
      ∃ e2 st2, GetPropagationData envLookahead 1500000 csiRecAC.tx_id rxRecC.id st1 =
          .ok (e2, st2, 0) ∧
        live 1500000 e2 = true ∧
        st2.m_cache_hits = st1.m_cache_hits + 1 ∧
        st2.m_cache_miss = st1.m_cache_miss :=
  c4_lookahead_fanout envLookahead 0 1500000 0 1 CacheState.init respLookahead
    csiRecAC rxRecC rfl rfl (fun x hx => absurd hx (List.not_mem_nil x))
    (List.mem_cons_of_mem _ (List.mem_singleton.mpr rfl))
    (List.mem_singleton.mpr rfl) (by decide) (by decide)

/-- C6 (amended): with the optimization enabled and the estimated received
power plus the margin below the noise floor, the delay accessor and the
three-argument loss accessor short-circuit to the fallback values without
touching the cache or the oracle; the CSI accessor, the frequency accessor
and the two-argument loss accessor perform no fast-path check and always
take the cache/oracle data path. -/
theorem c6_fast_path_only_delay_and_loss (env : Env) (now : ℤ) (a b : NodeState)
    (txPowerDbm : ℚ) (st : CacheState) (ce : CacheEntry) (st1 : CacheState) (n : ℕ)
    (hopt : st.m_optimize = true)
    (hdelay : env.friisRxPower 20 a.pos b.pos + st.m_optimize_margin < env.noiseFloor)
    (hloss : env.friisRxPower txPowerDbm a.pos b.pos + st.m_optimize_margin <
      env.noiseFloor)
    (hdata : GetPropagationData env now a.id b.id st = .ok (ce, st1, n)) :
    GetPropagationDelay env now a b st =
      .ok ⟨env.constDelay a.pos b.pos, a, b, st, 0⟩ ∧
    GetPropagationLossTx env now a b txPowerDbm st =
      .ok ⟨txPowerDbm - env.friisRxPower txPowerDbm a.pos b.pos, a, b, st, 0⟩ ∧
    GetPropagationCSI env now a b st = .ok ⟨ce.m_cfr, a, b, st1, n⟩ ∧
    GetPropagationFreq env now a b st = .ok ⟨ce.m_freq, a, b, st1, n⟩ ∧
    GetPropagationLossConst env now a b st = .ok ⟨ce.m_loss, a, b, st1, n⟩ := by
  refine ⟨?_, ?_, ?_, ?_, ?_⟩
  · unfold GetPropagationDelay
    rw [if_pos ⟨hopt, hdelay⟩]
  · unfold GetPropagationLossTx
    rw [if_pos ⟨hopt, hloss⟩]
  · unfold GetPropagationCSI
    rw [hdata]
  · unfold GetPropagationFreq
    rw [hdata]
  · unfold GetPropagationLossConst
    rw [hdata]

/-- C6 counterexample: with the optimization enabled and the link far below
the noise floor, the CSI accessor still performs one oracle round trip
instead of short-circuiting. -/
theorem c6_csi_ignores_fast_path :
    CacheState.init.m_optimize = true ∧
    envQuietResp.friisRxPower 20 nodeA.pos nodeB.pos +
      CacheState.init.m_optimize_margin < envQuietResp.noiseFloor ∧
    (GetPropagationCSI envQuietResp 0 nodeA nodeB CacheState.init).map
      (fun r => r.oracleCalls) = .ok 1 :=
  ⟨rfl, by norm_num [envQuietResp, CacheState.init], rfl⟩

/-- Cache state after the first (miss) query against the fixture response. -/
def stAfterMissAB : CacheState :=
  { CacheState.init with
      m_cache := ingestCsi CacheState.init.m_cache respAB.csi,
      m_cache_miss := 1 }

/-- C6 witness: concrete instantiation on the quiet fixture link. -/
theorem c6_witness :
    GetPropagationDelay envQuietResp 0 nodeA nodeB CacheState.init =
      .ok ⟨envQuietResp.constDelay nodeA.pos nodeB.pos, nodeA, nodeB,
           CacheState.init, 0⟩ ∧
    GetPropagationLossTx envQuietResp 0 nodeA nodeB 20 CacheState.init =
      .ok ⟨20 - envQuietResp.friisRxPower 20 nodeA.pos nodeB.pos, nodeA, nodeB,
           CacheState.init, 0⟩ ∧
    GetPropagationCSI envQuietResp 0 nodeA nodeB CacheState.init =
      .ok ⟨entryAB.m_cfr, nodeA, nodeB, stAfterMissAB, 1⟩ ∧
    GetPropagationFreq envQuietResp 0 nodeA nodeB CacheState.init =
      .ok ⟨entryAB.m_freq, nodeA, nodeB, stAfterMissAB, 1⟩ ∧
    GetPropagationLossConst envQuietResp 0 nodeA nodeB CacheState.init =
      .ok ⟨entryAB.m_loss, nodeA, nodeB, stAfterMissAB, 1⟩ :=
  c6_fast_path_only_delay_and_loss envQuietResp 0 nodeA nodeB 20 CacheState.init
    entryAB stAfterMissAB 1 rfl
    (by norm_num [envQuietResp, CacheState.init])
    (by norm_num [envQuietResp, CacheState.init]) rfl

/-- C7: when the fast path is not taken, the serving entry's oracle
positions are written back onto both endpoints — oriented directly when the
entry's recorded tx id equals the query's `a`, swapped otherwise — and the
entry's loss is returned. -/
theorem c7_position_writeback (env : Env) (now : ℤ) (a b : NodeState)
    (txPowerDbm : ℚ) (st : CacheState) (ce : CacheEntry) (st1 : CacheState) (n : ℕ)
    (hslow : ¬(st.m_optimize = true ∧
      env.friisRxPower txPowerDbm a.pos b.pos + st.m_optimize_margin <
        env.noiseFloor))
    (hdata : GetPropagationData env now a.id b.id st = .ok (ce, st1, n)) :
    (a.id = ce.m_a →
      GetPropagationLossTx env now a b txPowerDbm st =
        .ok ⟨ce.m_loss, { a with pos := ce.m_a_position },
             { b with pos := ce.m_b_position }, st1, n⟩) ∧
    (a.id ≠ ce.m_a →
      GetPropagationLossTx env now a b txPowerDbm st =
        .ok ⟨ce.m_loss, { a with pos := ce.m_b_position },
             { b with pos := ce.m_a_position }, st1, n⟩) := by
  have key : GetPropagationLossTx env now a b txPowerDbm st =
      if a.id = ce.m_a then
        .ok ⟨ce.m_loss, { a with pos := ce.m_a_position },
             { b with pos := ce.m_b_position }, st1, n⟩
      else
        .ok ⟨ce.m_loss, { a with pos := ce.m_b_position },
             { b with pos := ce.m_a_position }, st1, n⟩ := by
    unfold GetPropagationLossTx
    rw [if_neg hslow, hdata]
  refine ⟨fun hid => ?_, fun hid => ?_⟩
  · rw [key, if_pos hid]
  · rw [key, if_neg hid]

/-- C7 witness: the fixture entry is oriented as queried (tx id 0 = a), so
both endpoints receive the oracle positions directly. -/
theorem c7_witness :
    nodeA.id = entryAB.m_a ∧
    GetPropagationLossTx envResp 0 nodeA nodeB 20 CacheState.init =
      .ok ⟨entryAB.m_loss, { nodeA with pos := entryAB.m_a_position },
           { nodeB with pos := entryAB.m_b_position }, stAfterMissAB, 1⟩ :=
  ⟨rfl,
    (c7_position_writeback envResp 0 nodeA nodeB 20 CacheState.init entryAB
        stAfterMissAB 1 (by norm_num [envResp, CacheState.init]) rfl).1 rfl⟩

/-- Unfolding of the bucket lookup over a cons cell. -/
theorem Cache.findD_cons (k0 : CacheKey) (v : List CacheEntry) (rest : Cache)
    (k2 : CacheKey) :
    Cache.findD ((k0, v) :: rest) k2 = if k0 = k2 then v else Cache.findD rest k2 := by
  unfold Cache.findD
  show (if k0 = k2 then some v else Cache.find rest k2).getD [] = _
  by_cases h : k0 = k2
  · rw [if_pos h, if_pos h]
    rfl
  · rw [if_neg h, if_neg h]

/-- Completeness of insertion: a member of any bucket after an insert was
already stored there, or is the inserted entry under the inserted key. -/
theorem insertEntry_mem_complete (c : Cache) (key k2 : CacheKey)
    (e x : CacheEntry) (hx : x ∈ Cache.findD (Cache.insertEntry c key e) k2) :
    x ∈ Cache.findD c k2 ∨ (key = k2 ∧ x = e) := by
  induction c with
  | nil =>
      simp only [Cache.insertEntry] at hx
      rw [Cache.findD_cons] at hx
      by_cases hk : key = k2
      · rw [if_pos hk] at hx
        exact Or.inr ⟨hk, List.mem_singleton.mp hx⟩
      · rw [if_neg hk] at hx
        simp [Cache.findD, Cache.find] at hx
  | cons kv rest ih =>
      obtain ⟨k0, v⟩ := kv
      by_cases hk : k0 = key
      · have hins : Cache.insertEntry ((k0, v) :: rest) key e =
            (k0, v ++ [e]) :: rest := by
          simp only [Cache.insertEntry]
          rw [if_pos hk]
        rw [hins, Cache.findD_cons] at hx
        rw [Cache.findD_cons]
        by_cases hk2 : k0 = k2
        · rw [if_pos hk2] at hx ⊢
          rcases List.mem_append.mp hx with h | h
          · exact Or.inl h
          · exact Or.inr ⟨hk.symm.trans hk2, List.mem_singleton.mp h⟩
        · rw [if_neg hk2] at hx ⊢
          exact Or.inl hx
      · have hins : Cache.insertEntry ((k0, v) :: rest) key e =
            (k0, v) :: Cache.insertEntry rest key e := by
          simp only [Cache.insertEntry]
          rw [if_neg hk]
        rw [hins, Cache.findD_cons] at hx
        rw [Cache.findD_cons]
        by_cases hk2 : k0 = k2
        · rw [if_pos hk2] at hx ⊢
          exact Or.inl hx
        · rw [if_neg hk2] at hx ⊢
          exact ih hx

/-- Completeness of the receiver loop: a member of any bucket after
ingesting one CSI record's receivers was already stored, or is one of the
record's freshly built entries under its canonical key. -/
theorem ingestRx_mem_complete (cr : CsiRecord) (rxs : List RxRecord)
    (cache : Cache) (k2 : CacheKey) (x : CacheEntry)
    (hx : x ∈ Cache.findD (ingestRx cr cache rxs) k2) :
    x ∈ Cache.findD cache k2 ∨
      ∃ r ∈ rxs, CacheKey.make cr.tx_id r.id = k2 ∧ x = mkEntry cr r := by
  induction rxs generalizing cache with
  | nil => exact Or.inl hx
  | cons r0 rest ih =>
      simp only [ingestRx] at hx
      rcases ih _ hx with h | ⟨r, hr, hkey, hxe⟩
      · rcases insertEntry_mem_complete cache (CacheKey.make cr.tx_id r0.id) k2
          (mkEntry cr r0) x h with h2 | ⟨hkey, hxe⟩
        · exact Or.inl h2
        · exact Or.inr ⟨r0, List.mem_cons_self r0 rest, hkey, hxe⟩
      · exact Or.inr ⟨r, List.mem_cons_of_mem r0 hr, hkey, hxe⟩

/-- Completeness of ingestion: a member of any bucket after ingesting a
whole response was already stored, or is an entry built from one of the
response's records under that record's canonical key. -/
theorem ingestCsi_mem_complete (csis : List CsiRecord) (cache : Cache)
    (k2 : CacheKey) (x : CacheEntry)
    (hx : x ∈ Cache.findD (ingestCsi cache csis) k2) :
    x ∈ Cache.findD cache k2 ∨
      ∃ c ∈ csis, ∃ r ∈ c.rx_nodes,
        CacheKey.make c.tx_id r.id = k2 ∧ x = mkEntry c r := by
  induction csis generalizing cache with
  | nil => exact Or.inl hx
  | cons c0 rest ih =>
      simp only [ingestCsi] at hx
      rcases ih _ hx with h | ⟨c, hc, r, hr, hkey, hxe⟩
      · rcases ingestRx_mem_complete c0 c0.rx_nodes cache k2 x h with
          h2 | ⟨r, hr, hkey, hxe⟩
        · exact Or.inl h2
        · exact Or.inr ⟨c0, List.mem_cons_self c0 rest, r, hr, hkey, hxe⟩
      · exact Or.inr ⟨c, List.mem_cons_of_mem c0 hc, r, hr, hkey, hxe⟩

/-- When no bucket entry for the key is live, the final lookup of the miss
path serves the default-constructed dummy entry. -/
theorem serveFromCache_eq_dummy (cache : Cache) (key : CacheKey) (now : ℤ)
    (h : ∀ x ∈ Cache.findD cache key, live now x = false) :
    serveFromCache cache key now = CacheEntry.dummy := by
  unfold serveFromCache
  cases hf : Cache.find cache key with
  | none => rfl
  | some bucket =>
      have hbd : Cache.findD cache key = bucket := by
        unfold Cache.findD
        rw [hf]
        rfl
      rw [hbd] at h
      have hn : findLive now bucket = none := by
        unfold findLive
        apply List.find?_eq_none.mpr
        intro x hx
        simp [h x hx]
      show (findLive now bucket).getD CacheEntry.dummy = CacheEntry.dummy
      rw [hn]
      rfl

/-- C1 (amended): on every miss — no bucket present, a present bucket whose
entries are all non-live at `now`, or caching disabled with an all-non-live
(possibly absent) bucket — when the oracle's response carries no record for
the queried pair's canonical key that is live at `now` (so that after
ingesting all records no live entry for that key exists), the query returns
the default-constructed dummy entry as an ordinary result with one oracle
round trip; no fatal error is raised on any such path. -/
theorem c1_refill_without_live_entry_returns_dummy (env : Env) (now : ℤ)
    (p q : ℕ) (st : CacheState) (resp : ChannelStateResponse)
    (hresp : env.oracle p q now = .response resp)
    (hmiss : ∀ x ∈ Cache.findD st.m_cache (CacheKey.make p q), live now x = false)
    (hnew : ∀ c ∈ resp.csi, ∀ r ∈ c.rx_nodes,
      CacheKey.make c.tx_id r.id = CacheKey.make p q →
        live now (mkEntry c r) = false) :
    ∃ st1, GetPropagationData env now p q st = .ok (CacheEntry.dummy, st1, 1) ∧
      st1.m_cache_miss = st.m_cache_miss + 1 ∧
      st1.m_cache_hits = st.m_cache_hits := by
  -- ingestion leaves the queried key's bucket free of live entries,
  -- whatever cache the miss path starts ingesting into
  have hnolive : ∀ baseCache : Cache,
      (∀ x ∈ Cache.findD baseCache (CacheKey.make p q), live now x = false) →
      ∀ x ∈ Cache.findD (ingestCsi baseCache resp.csi) (CacheKey.make p q),
        live now x = false := by
    intro baseCache hbase x hx
    rcases ingestCsi_mem_complete resp.csi baseCache (CacheKey.make p q) x hx with
      h | ⟨c, hc, r, hr, hkey, hxe⟩
    · exact hbase x h
    · rw [hxe]
      exact hnew c hc r hr hkey
  -- closing step, shared by all three miss paths
  have finish : ∀ stA : CacheState,
      stA.m_cache_miss = st.m_cache_miss →
      stA.m_cache_hits = st.m_cache_hits →
      (∀ x ∈ Cache.findD stA.m_cache (CacheKey.make p q), live now x = false) →
      GetPropagationData env now p q st = missRefill env now p q stA →
      ∃ st1, GetPropagationData env now p q st = .ok (CacheEntry.dummy, st1, 1) ∧
        st1.m_cache_miss = st.m_cache_miss + 1 ∧
        st1.m_cache_hits = st.m_cache_hits := by
    intro stA hm hh hbase heq
    rw [heq, missRefill_response env now p q stA resp hresp,
      serveFromCache_eq_dummy _ _ _ (hnolive stA.m_cache hbase)]
    exact ⟨_, rfl, by rw [hm], hh⟩
  cases hcv : st.m_caching with
  | true =>
      cases hbq : Cache.find st.m_cache (CacheKey.make p q) with
      | none =>
          exact finish st rfl rfl hmiss (gpd_miss_nobucket env now p q st hcv hbq)
      | some b =>
          have hbd : Cache.findD st.m_cache (CacheKey.make p q) = b := by
            unfold Cache.findD
            rw [hbq]
            rfl
          have hmb : ∀ x ∈ b, live now x = false := by
            intro x hx
            apply hmiss x
            rw [hbd]
            exact hx
          have hf : findLive now (expireSweep now b) = none := by
            unfold findLive
            apply List.find?_eq_none.mpr
            intro x hx
            simp [hmb x (List.mem_filter.mp hx).1]
          refine finish
            { st with
              m_cache := Cache.setBucket st.m_cache (CacheKey.make p q) (expireSweep now b) }
            rfl rfl ?_
            (gpd_miss_swept env now p q st b hcv hbq hf)
          intro x hx
          have hfind : Cache.find (Cache.setBucket st.m_cache (CacheKey.make p q)
              (expireSweep now b)) (CacheKey.make p q) = some (expireSweep now b) :=
            Cache.find_setBucket st.m_cache (CacheKey.make p q) (expireSweep now b) b hbq
          have hxd : x ∈ expireSweep now b := by
            have hfd : Cache.findD (Cache.setBucket st.m_cache (CacheKey.make p q)
                (expireSweep now b)) (CacheKey.make p q) = expireSweep now b := by
              unfold Cache.findD
              rw [hfind]
              rfl
            rw [hfd] at hx
            exact hx
          exact hmb x (List.mem_filter.mp hxd).1
  | false =>
      exact finish st rfl rfl hmiss (gpd_nocaching env now p q st hcv)

/-- Cache state holding, for the pair (2,3), a bucket whose only entry is
stale at every nonnegative query time (the dummy entry's window is [-1,-1]). -/
def stStaleBucket : CacheState :=
  { CacheState.init with m_cache := [(CacheKey.make 2 3, [CacheEntry.dummy])] }

/-- C1 witness: a miss through a present bucket whose only entry is stale,
refilled by an empty oracle response, returns the dummy entry with one
round trip and no fatal error. -/
theorem c1_witness :
    ∃ st1, GetPropagationData envEmptyResp 5 2 3 stStaleBucket =
        .ok (CacheEntry.dummy, st1, 1) ∧
      st1.m_cache_miss = stStaleBucket.m_cache_miss + 1 ∧
      st1.m_cache_hits = stStaleBucket.m_cache_hits :=
  c1_refill_without_live_entry_returns_dummy envEmptyResp 5 2 3 stStaleBucket
    ⟨[]⟩ rfl
    (fun x hx => by
      rw [List.mem_singleton.mp hx]
      rfl)
    (fun c hc => absurd hc (List.not_mem_nil c))
